import Mathlib

/-!
Verification of the rtsp-to-wyoming voice assistant core: the utterance
segmenter (`AudioBuffer`), the transcription clients, the command matcher
and the action dispatcher, shallowly embedded from the Python sources
`onvif-voice-assistant/rootfs/app/app.py` and `app.py`.
-/

/-! ## Utterance segmenter (`AudioBuffer`, onvif-voice-assistant/rootfs/app/app.py) -/

/-- A PCM frame, as the list of its signed 16-bit samples.  The Python code
passes frames around as byte strings; one sample is two bytes, so a frame of
`n` samples is `2 * n` bytes. -/
abbrev Frame := List Int

/-- Byte length of a PCM buffer given as 16-bit samples (2 bytes per sample). -/
def byteLength (u : List Int) : Nat := 2 * u.length

/-- Sum of squared samples, as computed inside `AudioBuffer._calculate_energy`. -/
def sumSquares (f : Frame) : Int := (f.map fun s => s * s).sum

/-- `AudioBuffer._calculate_energy frame < thr`, embedded without real square
roots: the code computes `(sum_squares / n) ** 0.5` and compares it with the
threshold; for a non-empty frame `RMS < thr ↔ sum_squares < thr^2 * n`, and for
an empty frame the code returns energy `0`. -/
def energyBelow (f : Frame) (thr : Nat) : Bool :=
  if f.length = 0 then decide (0 < thr)
  else decide (sumSquares f < (thr : Int) ^ 2 * (f.length : Int))

/-- The final speech/non-speech classification of a frame in
`AudioBuffer.add_frame`: the VAD verdict (an external collaborator, passed here
as a function), overridden to non-speech when the frame's RMS energy is below
`min_energy_threshold`. -/
def classify (vad : Frame → Bool) (thr : Nat) (frame : Frame) : Bool :=
  let is_speech := vad frame
  if is_speech && energyBelow frame thr then false else is_speech

/-- State of `AudioBuffer` (the fields of `__init__` that the segmentation
logic reads or writes; `sample_rate`, `vad_threshold` and the VAD object do not
take part in the state machine). -/
structure AudioBuffer where
  buffer : List Frame
  is_speaking : Bool
  silence_frames : Nat
  recorded_frames : Nat
  max_silence_frames : Nat
  max_recording_frames : Nat
  min_energy_threshold : Nat
deriving DecidableEq

/-- `AudioBuffer.reset`: clears the buffer, the speaking flag and both
counters; the configured limits are untouched. -/
def AudioBuffer.reset (st : AudioBuffer) : AudioBuffer :=
  { st with buffer := [], is_speaking := false, silence_frames := 0, recorded_frames := 0 }

/-- `AudioBuffer.add_frame`: classify the frame, then run the buffering state
machine; returns the new state together with the finalized utterance bytes when
one is emitted (the Python method mutates `self` and returns
`Optional[bytes]`). -/
def AudioBuffer.add_frame (vad : Frame → Bool) (st : AudioBuffer) (frame : Frame) :
    AudioBuffer × Option (List Int) :=
  let is_speech := classify vad st.min_energy_threshold frame
  if is_speech then
    let st1 := if st.is_speaking then st else { st with recorded_frames := 0 }
    let st2 := { st1 with
                 is_speaking := true
                 silence_frames := 0
                 buffer := st1.buffer ++ [frame]
                 recorded_frames := st1.recorded_frames + 1 }
    if st2.max_recording_frames ≤ st2.recorded_frames then
      (st2.reset, some st2.buffer.flatten)
    else
      (st2, none)
  else if st.is_speaking then
    let st2 := { st with
                 silence_frames := st.silence_frames + 1
                 buffer := st.buffer ++ [frame] }
    if st2.max_silence_frames ≤ st2.silence_frames then
      (st2.reset, some st2.buffer.flatten)
    else
      (st2, none)
  else
    (st, none)

/-- An idle segmenter with the given configured limits. -/
def AudioBuffer.mkInit (s r t : Nat) : AudioBuffer :=
  ⟨[], false, 0, 0, s, r, t⟩

/-- The state built by `AudioBuffer.__init__`: `max_silence_frames = 30`,
`max_recording_frames = 1000`, `min_energy_threshold = 500`. -/
def AudioBuffer.init : AudioBuffer := AudioBuffer.mkInit 30 1000 500

/-- Feed a list of frames one at a time, collecting each call's return value. -/
def runFrames (vad : Frame → Bool) (st : AudioBuffer) :
    List Frame → AudioBuffer × List (Option (List Int))
  | [] => (st, [])
  | f :: fs =>
      let p := AudioBuffer.add_frame vad st f
      let q := runFrames vad p.1 fs
      (q.1, p.2 :: q.2)

/-- A VAD stand-in used for concrete evaluations: a frame is flagged as speech
when its first sample is non-zero. -/
def vadEx : Frame → Bool := fun f => decide (f.headD 0 ≠ 0)

example : classify vadEx 500 [600] = true := by decide
example : classify vadEx 500 [0] = false := by decide
example : classify (fun _ => true) 500 [1] = false := by decide
example :
    (AudioBuffer.add_frame vadEx AudioBuffer.init [600]).1.is_speaking = true := by decide

lemma add_frame_speech (vad : Frame → Bool) (f : Frame) (B : List Frame) (sil c s r t : Nat)
    (hc : classify vad t f = true) (hf : c + 1 < r) :
    AudioBuffer.add_frame vad ⟨B, true, sil, c, s, r, t⟩ f
      = (⟨B ++ [f], true, 0, c + 1, s, r, t⟩, none) := by
  simp [AudioBuffer.add_frame, hc, Nat.not_le.mpr hf]

lemma add_frame_speech_force (vad : Frame → Bool) (f : Frame) (B : List Frame) (sil c s r t : Nat)
    (hc : classify vad t f = true) (hf : r ≤ c + 1) :
    AudioBuffer.add_frame vad ⟨B, true, sil, c, s, r, t⟩ f
      = (⟨[], false, 0, 0, s, r, t⟩, some (B ++ [f]).flatten) := by
  simp [AudioBuffer.add_frame, AudioBuffer.reset, hc, hf]

lemma add_frame_speech_idle (vad : Frame → Bool) (f : Frame) (B : List Frame) (sil c s r t : Nat)
    (hc : classify vad t f = true) (hf : 1 < r) :
    AudioBuffer.add_frame vad ⟨B, false, sil, c, s, r, t⟩ f
      = (⟨B ++ [f], true, 0, 1, s, r, t⟩, none) := by
  simp [AudioBuffer.add_frame, hc, Nat.not_le.mpr hf]

lemma add_frame_silence (vad : Frame → Bool) (f : Frame) (B : List Frame) (sil c s r t : Nat)
    (hc : classify vad t f = false) (hs : sil + 1 < s) :
    AudioBuffer.add_frame vad ⟨B, true, sil, c, s, r, t⟩ f
      = (⟨B ++ [f], true, sil + 1, c, s, r, t⟩, none) := by
  simp [AudioBuffer.add_frame, hc, Nat.not_le.mpr hs]

lemma add_frame_silence_emit (vad : Frame → Bool) (f : Frame) (B : List Frame) (sil c s r t : Nat)
    (hc : classify vad t f = false) (hs : s ≤ sil + 1) :
    AudioBuffer.add_frame vad ⟨B, true, sil, c, s, r, t⟩ f
      = (⟨[], false, 0, 0, s, r, t⟩, some (B ++ [f]).flatten) := by
  simp [AudioBuffer.add_frame, AudioBuffer.reset, hc, hs]

lemma add_frame_idle (vad : Frame → Bool) (f : Frame) (st : AudioBuffer)
    (hc : classify vad st.min_energy_threshold f = false) (hsp : st.is_speaking = false) :
    AudioBuffer.add_frame vad st f = (st, none) := by
  simp [AudioBuffer.add_frame, hc, hsp]

lemma runFrames_nil (vad : Frame → Bool) (st : AudioBuffer) :
    runFrames vad st [] = (st, []) := rfl

lemma runFrames_cons (vad : Frame → Bool) (st : AudioBuffer) (f : Frame) (fs : List Frame) :
    runFrames vad st (f :: fs)
      = ((runFrames vad (AudioBuffer.add_frame vad st f).1 fs).1,
         (AudioBuffer.add_frame vad st f).2
           :: (runFrames vad (AudioBuffer.add_frame vad st f).1 fs).2) := rfl

lemma runFrames_append (vad : Frame → Bool) (st : AudioBuffer) (a b : List Frame) :
    runFrames vad st (a ++ b)
      = ((runFrames vad (runFrames vad st a).1 b).1,
         (runFrames vad st a).2 ++ (runFrames vad (runFrames vad st a).1 b).2) := by
  induction a generalizing st with
  | nil => simp [runFrames]
  | cons f fs ih => simp [runFrames_cons, ih]

lemma run_speech_absorb (vad : Frame → Bool) (S : List Frame) (B : List Frame) (c s r t : Nat)
    (hc : ∀ f ∈ S, classify vad t f = true) (hr : c + S.length < r) :
    runFrames vad ⟨B, true, 0, c, s, r, t⟩ S
      = (⟨B ++ S, true, 0, c + S.length, s, r, t⟩, List.replicate S.length none) := by
  induction S generalizing B c with
  | nil => simp [runFrames]
  | cons f fs ih =>
      have h1 : classify vad t f = true := hc f (by simp)
      have h2 : c + 1 < r := by simp at hr; omega
      rw [runFrames_cons, add_frame_speech vad f B 0 c s r t h1 h2]
      have := ih (B ++ [f]) (c + 1) (fun g hg => hc g (by simp [hg])) (by simp at hr ⊢; omega)
      rw [this]
      simp [List.replicate_succ]
      omega

lemma run_silence_absorb (vad : Frame → Bool) (N : List Frame) (B : List Frame)
    (sil c s r t : Nat)
    (hc : ∀ f ∈ N, classify vad t f = false) (hs : sil + N.length < s) :
    runFrames vad ⟨B, true, sil, c, s, r, t⟩ N
      = (⟨B ++ N, true, sil + N.length, c, s, r, t⟩, List.replicate N.length none) := by
  induction N generalizing B sil with
  | nil => simp [runFrames]
  | cons f fs ih =>
      have h1 : classify vad t f = false := hc f (by simp)
      have h2 : sil + 1 < s := by simp at hs; omega
      rw [runFrames_cons, add_frame_silence vad f B sil c s r t h1 h2]
      have := ih (B ++ [f]) (sil + 1) (fun g hg => hc g (by simp [hg])) (by simp at hs ⊢; omega)
      rw [this]
      simp [List.replicate_succ]
      omega

lemma run_idle_noop (vad : Frame → Bool) (N : List Frame) (st : AudioBuffer)
    (hc : ∀ f ∈ N, classify vad st.min_energy_threshold f = false)
    (hsp : st.is_speaking = false) :
    runFrames vad st N = (st, List.replicate N.length none) := by
  induction N with
  | nil => simp [runFrames]
  | cons f fs ih =>
      rw [runFrames_cons, add_frame_idle vad f st (hc f (by simp)) hsp]
      rw [ih (fun g hg => hc g (by simp [hg]))]
      simp [List.replicate_succ]

lemma run_speech_from_idle (vad : Frame → Bool) (S : List Frame) (s r t : Nat)
    (hS : S ≠ []) (hr : S.length < r)
    (hc : ∀ f ∈ S, classify vad t f = true) :
    runFrames vad (AudioBuffer.mkInit s r t) S
      = (⟨S, true, 0, S.length, s, r, t⟩, List.replicate S.length none) := by
  match S, hS with
  | f :: fs, _ =>
      have h1 : classify vad t f = true := hc f (by simp)
      have h2 : 1 < r := by simp at hr; omega
      rw [AudioBuffer.mkInit, runFrames_cons, add_frame_speech_idle vad f [] 0 0 s r t h1 h2]
      have := run_speech_absorb vad fs ([] ++ [f]) 1 s r t
        (fun g hg => hc g (by simp [hg])) (by simp at hr ⊢; omega)
      rw [this]
      simp [List.replicate_succ]
      omega

lemma flatten_length_uniform (B : List Frame) (L : Nat)
    (h : ∀ f ∈ B, f.length = L) : B.flatten.length = B.length * L := by
  induction B with
  | nil => simp
  | cons f fs ih =>
      simp [List.flatten_cons, h f (by simp), ih (fun g hg => h g (by simp [hg]))]
      ring

set_option maxRecDepth 8000 in
/-- C1 (amended): starting idle, a speech run `S` (non-empty, shorter than
`max_recording_frames`) followed by at least `max_silence_frames` non-speech
frames (`N1 ++ [f] ++ N2` with `N1.length + 1 = max_silence_frames`) makes
`add_frame` return exactly one utterance, on the non-speech frame at which the
silence counter reaches `max_silence_frames`; the utterance is the
concatenation of the frames from the first speech frame through that frame
(byte length `(S.length + max_silence_frames) * frame_size`), the segmenter is
empty/idle immediately afterwards, and the remaining silence frames are
no-ops. -/
theorem c1_amended (vad : Frame → Bool) (s r t L : Nat)
    (S N1 N2 : List Frame) (f : Frame)
    (hS : S ≠ []) (hSr : S.length < r)
    (hN1 : N1.length + 1 = s)
    (hcS : ∀ g ∈ S, classify vad t g = true)
    (hcN1 : ∀ g ∈ N1, classify vad t g = false)
    (hcf : classify vad t f = false)
    (hcN2 : ∀ g ∈ N2, classify vad t g = false)
    (hL : ∀ g ∈ S ++ N1 ++ [f], g.length = L) :
    runFrames vad (AudioBuffer.mkInit s r t) (S ++ N1 ++ f :: N2)
      = (AudioBuffer.mkInit s r t,
         List.replicate (S.length + N1.length) none
           ++ some (S ++ N1 ++ [f]).flatten :: List.replicate N2.length none)
    ∧ byteLength (S ++ N1 ++ [f]).flatten = (S.length + s) * (2 * L) := by
  constructor
  · rw [List.append_assoc, runFrames_append,
        run_speech_from_idle vad S s r t hS hSr hcS]
    rw [show N1 ++ f :: N2 = (N1 ++ [f]) ++ N2 by simp]
    rw [runFrames_append, runFrames_append,
        run_silence_absorb vad N1 S 0 S.length s r t hcN1 (by omega)]
    rw [runFrames_cons,
        add_frame_silence_emit vad f (S ++ N1) (0 + N1.length) S.length s r t hcf (by omega)]
    rw [runFrames_nil]
    rw [run_idle_noop vad N2 ⟨[], false, 0, 0, s, r, t⟩ hcN2 rfl]
    dsimp only
    rw [AudioBuffer.mkInit]
    simp
    rw [List.replicate_add, List.append_assoc]
  · have hlen := flatten_length_uniform (S ++ N1 ++ [f]) L hL
    have hcount : (S ++ N1 ++ [f]).length = S.length + s := by
      simp
      omega
    rw [byteLength, hlen, hcount]
    ring

lemma add_frame_speech_idle_force (vad : Frame → Bool) (f : Frame) (B : List Frame)
    (sil c s r t : Nat)
    (hc : classify vad t f = true) (hf : r ≤ 1) :
    AudioBuffer.add_frame vad ⟨B, false, sil, c, s, r, t⟩ f
      = (⟨[], false, 0, 0, s, r, t⟩, some (B ++ [f]).flatten) := by
  simp [AudioBuffer.add_frame, AudioBuffer.reset, hc, hf]

/-- C2: feeding `max_recording_frames` consecutive speech-classified frames
from the idle state forces exactly one utterance on the frame at which the
speech-frame counter reaches `max_recording_frames` (`None` on every earlier
call), with byte length exactly `max_recording_frames * frame_size` for
uniform `L`-sample frames, no silence run required; the segmenter is reset
immediately afterwards. -/
theorem c2_forced_cutoff (vad : Frame → Bool) (s r t L : Nat) (S : List Frame)
    (hr : 1 ≤ r) (hlen : S.length = r)
    (hc : ∀ g ∈ S, classify vad t g = true)
    (hL : ∀ g ∈ S, g.length = L) :
    runFrames vad (AudioBuffer.mkInit s r t) S
      = (AudioBuffer.mkInit s r t,
         List.replicate (r - 1) none ++ [some S.flatten])
    ∧ byteLength S.flatten = r * (2 * L) := by
  have hS : S ≠ [] := by
    intro h
    rw [h] at hlen
    simp at hlen
    omega
  constructor
  · obtain ⟨A, f, hAf⟩ : ∃ A f, S = A ++ [f] := by
      rcases List.eq_nil_or_concat S with h | ⟨A, f, h⟩
      · exact absurd h hS
      · exact ⟨A, f, by simpa [List.concat_eq_append] using h⟩
    subst hAf
    have hA : A.length = r - 1 := by
      simp at hlen
      omega
    have hf : classify vad t f = true := hc f (by simp)
    rcases eq_or_ne A [] with hAnil | hAne
    · subst hAnil
      have hr1 : r = 1 := by simp at hlen; omega
      rw [List.nil_append, runFrames_cons, AudioBuffer.mkInit,
          add_frame_speech_idle_force vad f [] 0 0 s r t hf (by omega),
          runFrames_nil]
      dsimp only
      rw [hr1]
      simp
    · rw [runFrames_append,
          run_speech_from_idle vad A s r t hAne (by omega) (fun g hg => hc g (by simp [hg]))]
      rw [runFrames_cons,
          add_frame_speech_force vad f A 0 A.length s r t hf (by omega),
          runFrames_nil]
      dsimp only
      rw [AudioBuffer.mkInit, hA]
  · have hlen2 := flatten_length_uniform S L hL
    rw [byteLength, hlen2, hlen]
    ring

lemma run_speech_absorb_any (vad : Frame → Bool) (S B : List Frame) (sil c s r t : Nat)
    (hS : S ≠ [])
    (hc : ∀ f ∈ S, classify vad t f = true) (hr : c + S.length < r) :
    runFrames vad ⟨B, true, sil, c, s, r, t⟩ S
      = (⟨B ++ S, true, 0, c + S.length, s, r, t⟩, List.replicate S.length none) := by
  match S, hS with
  | f :: fs, _ =>
      have h1 : classify vad t f = true := hc f (by simp)
      have h2 : c + 1 < r := by simp at hr; omega
      rw [runFrames_cons, add_frame_speech vad f B sil c s r t h1 h2]
      have := run_speech_absorb vad fs (B ++ [f]) (c + 1) s r t
        (fun g hg => hc g (by simp [hg])) (by simp at hr ⊢; omega)
      rw [this]
      simp [List.replicate_succ]
      omega

/-- C9: the forced-cutoff counter counts only speech-classified frames: with a
speech run `A`, a trailing-silence window `B` shorter than
`max_silence_frames`, and a further speech run `C` with
`A.length + C.length = max_recording_frames`, the forced utterance contains all
of `A ++ B ++ C`, so its byte length is `(max_recording_frames + B.length) *
frame_size` — at least `max_recording_frames * frame_size`, and strictly
greater whenever a non-speech frame was interleaved. -/
theorem c9_forced_cutoff_counts_speech (vad : Frame → Bool) (s r t L : Nat)
    (A B C : List Frame)
    (hA : A ≠ []) (hC : C ≠ [])
    (hr : A.length + C.length = r)
    (hb : B.length + 1 ≤ s)
    (hcA : ∀ g ∈ A, classify vad t g = true)
    (hcB : ∀ g ∈ B, classify vad t g = false)
    (hcC : ∀ g ∈ C, classify vad t g = true)
    (hL : ∀ g ∈ A ++ B ++ C, g.length = L) :
    runFrames vad (AudioBuffer.mkInit s r t) (A ++ B ++ C)
      = (AudioBuffer.mkInit s r t,
         List.replicate (A.length + B.length + C.length - 1) none
           ++ [some (A ++ B ++ C).flatten])
    ∧ byteLength (A ++ B ++ C).flatten = (r + B.length) * (2 * L)
    ∧ r * (2 * L) ≤ byteLength (A ++ B ++ C).flatten
    ∧ (B ≠ [] → 0 < L → r * (2 * L) < byteLength (A ++ B ++ C).flatten) := by
  have hCpos : 1 ≤ C.length := by
    cases C with
    | nil => exact absurd rfl hC
    | cons x xs => simp
  have hApos : 1 ≤ A.length := by
    cases A with
    | nil => exact absurd rfl hA
    | cons x xs => simp
  have hblen : byteLength (A ++ B ++ C).flatten = (r + B.length) * (2 * L) := by
    have hlen := flatten_length_uniform (A ++ B ++ C) L hL
    rw [byteLength, hlen]
    simp
    have : A.length + B.length + C.length = r + B.length := by omega
    rw [show A.length + (B.length + C.length) = A.length + B.length + C.length by omega, this]
    ring
  refine ⟨?_, hblen, ?_, ?_⟩
  · obtain ⟨C1, g, hC1g⟩ : ∃ C1 g, C = C1 ++ [g] := by
      rcases List.eq_nil_or_concat C with h | ⟨C1, g, h⟩
      · exact absurd h hC
      · exact ⟨C1, g, by simpa [List.concat_eq_append] using h⟩
    subst hC1g
    have hg : classify vad t g = true := hcC g (by simp)
    rw [List.append_assoc, runFrames_append,
        run_speech_from_idle vad A s r t hA (by omega) hcA]
    rw [runFrames_append,
        run_silence_absorb vad B A 0 A.length s r t hcB (by omega)]
    rcases eq_or_ne C1 [] with hC1nil | hC1ne
    · subst hC1nil
      rw [List.nil_append, runFrames_cons,
          add_frame_speech_force vad g (A ++ B) (0 + B.length) A.length s r t hg
            (by simp at hr; omega),
          runFrames_nil]
      dsimp only
      rw [AudioBuffer.mkInit]
      simp [List.append_assoc]
      rw [List.replicate_add, List.append_assoc]
    · rw [show C1 ++ [g] = C1 ++ [g] from rfl, runFrames_append,
          run_speech_absorb_any vad C1 (A ++ B) (0 + B.length) A.length s r t hC1ne
            (fun x hx => hcC x (by simp [hx])) (by simp at hr ⊢; omega)]
      rw [runFrames_cons,
          add_frame_speech_force vad g ((A ++ B) ++ C1) 0 (A.length + C1.length) s r t hg
            (by simp at hr; omega),
          runFrames_nil]
      dsimp only
      rw [AudioBuffer.mkInit]
      simp [List.append_assoc]
      rw [List.replicate_add, List.replicate_add, List.append_assoc, List.append_assoc]
  · rw [hblen]
    exact Nat.mul_le_mul_right _ (by omega)
  · intro hBne hLpos
    rw [hblen]
    have hbpos : 1 ≤ B.length := by
      cases B with
      | nil => exact absurd rfl hBne
      | cons x xs => simp
    have : 0 < 2 * L := by omega
    exact Nat.mul_lt_mul_of_lt_of_le (by omega) (le_refl _) this

/-- Invariant of segmenter states reachable from an idle state when every frame
carries `L` samples: buffered frames are `L` samples each, the buffer is empty
whenever the segmenter is idle, and while speaking the buffer holds at least
one frame more than the current silence run (the frame that started the
utterance). -/
def SegInv (L : Nat) (st : AudioBuffer) : Prop :=
  (∀ f ∈ st.buffer, f.length = L)
  ∧ (st.is_speaking = false → st.buffer = [])
  ∧ (st.is_speaking = true → st.silence_frames + 1 ≤ st.buffer.length)

lemma segInv_init (L s r t : Nat) : SegInv L (AudioBuffer.mkInit s r t) := by
  refine ⟨?_, ?_, ?_⟩ <;> simp [AudioBuffer.mkInit]

lemma segInv_preserved (vad : Frame → Bool) (L : Nat) (st : AudioBuffer) (f : Frame)
    (h : SegInv L st) (hf : f.length = L) :
    SegInv L (AudioBuffer.add_frame vad st f).1 := by
  obtain ⟨B, sp, sil, c, s, r, t⟩ := st
  obtain ⟨h1, h2, h3⟩ := h
  simp only at h1 h2 h3
  by_cases hc : classify vad t f = true
  · cases sp with
    | false =>
        have hB : B = [] := h2 rfl
        subst hB
        by_cases hforce : r ≤ 1
        · rw [add_frame_speech_idle_force vad f [] sil c s r t hc hforce]
          exact ⟨by simp, by simp, by simp⟩
        · rw [add_frame_speech_idle vad f [] sil c s r t hc (by omega)]
          refine ⟨?_, by simp, ?_⟩
          · intro g hg
            simp at hg
            simp [hg, hf]
          · intro _
            simp
    | true =>
        by_cases hforce : r ≤ c + 1
        · rw [add_frame_speech_force vad f B sil c s r t hc hforce]
          exact ⟨by simp, by simp, by simp⟩
        · rw [add_frame_speech vad f B sil c s r t hc (by omega)]
          refine ⟨?_, by simp, ?_⟩
          · intro g hg
            simp at hg
            rcases hg with hg | hg
            · exact h1 g hg
            · simp [hg, hf]
          · intro _
            simp
  · have hc' : classify vad t f = false := by
      cases hcc : classify vad t f
      · rfl
      · exact absurd hcc hc
    cases sp with
    | false =>
        rw [add_frame_idle vad f ⟨B, false, sil, c, s, r, t⟩ hc' rfl]
        exact ⟨h1, fun _ => h2 rfl, by simp⟩
    | true =>
        by_cases hemit : s ≤ sil + 1
        · rw [add_frame_silence_emit vad f B sil c s r t hc' hemit]
          exact ⟨by simp, by simp, by simp⟩
        · rw [add_frame_silence vad f B sil c s r t hc' (by omega)]
          refine ⟨?_, by simp, ?_⟩
          · intro g hg
            simp at hg
            rcases hg with hg | hg
            · exact h1 g hg
            · simp [hg, hf]
          · intro _
            have := h3 rfl
            simp
            omega

/-- C8: from any reachable state (invariant `SegInv`), when `add_frame`
returns an utterance it is a non-empty byte string, and when it returns via
silence-end detection (frame classified non-speech) the utterance holds at
least `1 + max_silence_frames` frames' worth of bytes. -/
theorem c8_silence_emission_bounds (vad : Frame → Bool) (L : Nat) (st : AudioBuffer)
    (f : Frame) (u : List Int)
    (hInv : SegInv L st) (hf : f.length = L) (hL : 0 < L)
    (hout : (AudioBuffer.add_frame vad st f).2 = some u) :
    u ≠ []
    ∧ (classify vad st.min_energy_threshold f = false →
        (1 + st.max_silence_frames) * (2 * L) ≤ byteLength u) := by
  obtain ⟨B, sp, sil, c, s, r, t⟩ := st
  obtain ⟨h1, h2, h3⟩ := hInv
  simp only at h1 h2 h3 ⊢
  by_cases hc : classify vad t f = true
  · refine ⟨?_, ?_⟩
    · cases sp with
      | false =>
          have hB : B = [] := h2 rfl
          subst hB
          by_cases hforce : r ≤ 1
          · rw [add_frame_speech_idle_force vad f [] sil c s r t hc hforce] at hout
            have hv : ([] ++ [f] : List Frame).flatten = u := by simpa using hout
            intro hnil
            rw [hnil] at hv
            simp at hv
            rw [hv] at hf
            simp at hf
            omega
          · rw [add_frame_speech_idle vad f [] sil c s r t hc (by omega)] at hout
            simp at hout
      | true =>
          by_cases hforce : r ≤ c + 1
          · rw [add_frame_speech_force vad f B sil c s r t hc hforce] at hout
            have hv : (B ++ [f]).flatten = u := by simpa using hout
            intro hnil
            rw [hnil] at hv
            simp at hv
            rw [hv.2] at hf
            simp at hf
            omega
          · rw [add_frame_speech vad f B sil c s r t hc (by omega)] at hout
            simp at hout
    · intro hcontra
      rw [hcontra] at hc
      simp at hc
  · have hc' : classify vad t f = false := by
      cases hcc : classify vad t f
      · rfl
      · exact absurd hcc hc
    cases sp with
    | false =>
        rw [add_frame_idle vad f ⟨B, false, sil, c, s, r, t⟩ hc' rfl] at hout
        simp at hout
    | true =>
        by_cases hemit : s ≤ sil + 1
        · rw [add_frame_silence_emit vad f B sil c s r t hc' hemit] at hout
          have hv : (B ++ [f]).flatten = u := by simpa using hout
          have hall : ∀ g ∈ B ++ [f], g.length = L := by
            intro g hg
            simp at hg
            rcases hg with hg | hg
            · exact h1 g hg
            · simp [hg, hf]
          have hulen : u.length = (B.length + 1) * L := by
            rw [← hv, flatten_length_uniform (B ++ [f]) L hall]
            simp
          have hsil : s ≤ B.length := by
            have := h3 rfl
            omega
          constructor
          · intro hnil
            rw [hnil] at hulen
            simp at hulen
            have : 0 < (B.length + 1) * L := Nat.mul_pos (by omega) hL
            omega
          · intro _
            rw [byteLength, hulen]
            have h1s : (1 + s) * L ≤ (B.length + 1) * L :=
              Nat.mul_le_mul_right _ (by omega)
            calc (1 + s) * (2 * L) = 2 * ((1 + s) * L) := by ring
              _ ≤ 2 * ((B.length + 1) * L) := by omega
        · rw [add_frame_silence vad f B sil c s r t hc' (by omega)] at hout
          simp at hout

/-- C6: a frame the VAD flags as speech but whose RMS energy is below
`min_energy_threshold` is reclassified as non-speech, and in the idle state
such a frame starts no utterance and leaves the segmenter state unchanged. -/
theorem c6_energy_gate (vad : Frame → Bool) (st : AudioBuffer) (f : Frame)
    (hvad : vad f = true) (hlow : energyBelow f st.min_energy_threshold = true)
    (hidle : st.is_speaking = false) :
    classify vad st.min_energy_threshold f = false
    ∧ AudioBuffer.add_frame vad st f = (st, none) := by
  have hcls : classify vad st.min_energy_threshold f = false := by
    simp [classify, hvad, hlow]
  exact ⟨hcls, add_frame_idle vad f st hcls hidle⟩

theorem c6_energy_gate_witness :
    classify (fun _ => true) AudioBuffer.init.min_energy_threshold [1] = false
    ∧ AudioBuffer.add_frame (fun _ => true) AudioBuffer.init [1]
        = (AudioBuffer.init, none) :=
  c6_energy_gate (fun _ => true) AudioBuffer.init [1] rfl (by decide) rfl

/-- C1 counterexample: one speech frame followed by 31 non-speech frames (a
silence run of ≥ `max_silence_frames = 30`): the single utterance is emitted on
the 30th silence frame — not on the frame that completes the 31-frame silence
run, whose call returns `None` — and its length (31 frames) differs from the
span from speech start through the last frame of the silence run (32 frames),
contradicting the claim's byte-length equation. -/
theorem c1_counterexample :
    (runFrames vadEx AudioBuffer.init ([[600]] ++ List.replicate 31 [0])).2
      = (List.replicate 30 none
          ++ some ((600:ℤ) :: List.replicate 30 (0:ℤ)) :: [none] : List (Option (List ℤ)))
    ∧ ((600:ℤ) :: List.replicate 30 0).length
        ≠ ([[600]] ++ List.replicate 31 ([0] : Frame)).flatten.length := by
  constructor
  · decide
  · decide

theorem c1_amended_witness :
    runFrames vadEx (AudioBuffer.mkInit 30 1000 500)
        ([[600]] ++ List.replicate 29 [0] ++ [0] :: [])
      = (AudioBuffer.mkInit 30 1000 500,
         List.replicate (([[600]] : List Frame).length
             + (List.replicate 29 ([0] : Frame)).length) none
           ++ some ([[600]] ++ List.replicate 29 [0] ++ [[0]] : List Frame).flatten
             :: List.replicate ([] : List Frame).length none)
    ∧ byteLength ([[600]] ++ List.replicate 29 [0] ++ [[0]] : List Frame).flatten
        = (([[600]] : List Frame).length + 30) * (2 * 1) :=
  c1_amended vadEx 30 1000 500 1 [[600]] (List.replicate 29 [0]) [] [0]
    (by decide) (by decide) (by decide) (by decide) (by decide) (by decide)
    (by decide) (by decide)

theorem c2_forced_cutoff_witness :
    runFrames vadEx (AudioBuffer.mkInit 5 3 500) (List.replicate 3 [600])
      = (AudioBuffer.mkInit 5 3 500,
         List.replicate (3 - 1) none ++ [some (List.replicate 3 ([600] : Frame)).flatten])
    ∧ byteLength (List.replicate 3 ([600] : Frame)).flatten = 3 * (2 * 1) :=
  c2_forced_cutoff vadEx 5 3 500 1 (List.replicate 3 [600])
    (by decide) (by decide) (by decide) (by decide)

theorem c9_forced_cutoff_counts_speech_witness :
    runFrames vadEx (AudioBuffer.mkInit 2 3 500) ([[600]] ++ [[0]] ++ [[600], [600]])
      = (AudioBuffer.mkInit 2 3 500,
         List.replicate (([[600]] : List Frame).length + ([[0]] : List Frame).length
             + ([[600], [600]] : List Frame).length - 1) none
           ++ [some ([[600]] ++ [[0]] ++ [[600], [600]] : List Frame).flatten])
    ∧ byteLength ([[600]] ++ [[0]] ++ [[600], [600]] : List Frame).flatten
        = (3 + ([[0]] : List Frame).length) * (2 * 1)
    ∧ 3 * (2 * 1) ≤ byteLength ([[600]] ++ [[0]] ++ [[600], [600]] : List Frame).flatten
    ∧ (([[0]] : List Frame) ≠ [] → 0 < 1 →
        3 * (2 * 1) < byteLength ([[600]] ++ [[0]] ++ [[600], [600]] : List Frame).flatten) :=
  c9_forced_cutoff_counts_speech vadEx 2 3 500 1 [[600]] [[0]] [[600], [600]]
    (by decide) (by decide) (by decide) (by decide) (by decide) (by decide)
    (by decide) (by decide)

theorem c8_silence_emission_bounds_witness :
    ([600, 0] : List Int) ≠ []
    ∧ (classify vadEx (⟨[[600]], true, 0, 1, 1, 5, 500⟩ : AudioBuffer).min_energy_threshold [0]
          = false →
        (1 + (⟨[[600]], true, 0, 1, 1, 5, 500⟩ : AudioBuffer).max_silence_frames) * (2 * 1)
          ≤ byteLength [600, 0]) :=
  c8_silence_emission_bounds vadEx 1 ⟨[[600]], true, 0, 1, 1, 5, 500⟩ [0] [600, 0]
    (by refine ⟨?_, ?_, ?_⟩ <;> decide) (by decide) (by decide) (by decide)

/-! ## Command matcher (`ONVIFVoiceAssistant._process_command`) -/

/-- Whitespace characters recognised by the model of Python `str.strip()` /
`str.split()` (the ASCII whitespace actually occurring in transcripts). -/
def isWs (c : Char) : Bool := c = ' ' || c = '\t' || c = '\n' || c = '\r'

/-- Python `str.lstrip()` on a character list. -/
def lstripWs (l : List Char) : List Char := l.dropWhile isWs

/-- Python `str.strip()` on a character list. -/
def pyStrip (l : List Char) : List Char :=
  ((l.dropWhile isWs).reverse.dropWhile isWs).reverse

/-- Python `str.rstrip('.,!?')` on a character list. -/
def rstripPunct (l : List Char) : List Char :=
  (l.reverse.dropWhile (fun c => c = '.' || c = ',' || c = '!' || c = '?')).reverse

/-- Python `str.lower()` restricted to ASCII letters. -/
def lowerChar (c : Char) : Char :=
  if 'A' ≤ c && c ≤ 'Z' then Char.ofNat (c.toNat + 32) else c

/-- ASCII lower-casing of a character list. -/
def lowerStr (l : List Char) : List Char := l.map lowerChar

/-- Helper of `splitWs`: accumulates the current word (reversed). -/
def splitWsAux : List Char → List Char → List (List Char)
  | [], acc => if acc.isEmpty then [] else [acc.reverse]
  | c :: cs, acc =>
      if isWs c then
        if acc.isEmpty then splitWsAux cs [] else acc.reverse :: splitWsAux cs []
      else
        splitWsAux cs (c :: acc)

/-- Python `str.split()` with no separator: whitespace-run tokenisation with no
empty words. -/
def splitWs (l : List Char) : List (List Char) := splitWsAux l []

/-- One rule comparison inside `_process_command`, given the already cleaned
transcript `text_clean = text.strip().rstrip('.,!?')`: exact match of the
normalized pattern, or all pattern words present with their first-occurrence
indices (`list.index`) in non-decreasing order (`indices == sorted(indices)`,
with Python's `sorted` modelled by `List.insertionSort`, which agrees with it
on natural numbers). -/
def ruleMatches (text_clean : List Char) (pattern : List Char) : Bool :=
  let p := pyStrip (lowerStr pattern)
  let text_words := splitWs text_clean
  let pattern_words := splitWs p
  (text_clean == p)
    || (pattern_words.all (fun w => text_words.contains w)
        && (pattern_words.map (fun w => text_words.indexOf w)
              == List.insertionSort (· ≤ ·) (pattern_words.map (fun w => text_words.indexOf w))))

/-- The rule loop of `_process_command`: first matching pattern wins. -/
def matchFirst (text_clean : List Char) : List (List Char) → Option (List Char)
  | [] => none
  | p :: ps => if ruleMatches text_clean p then some p else matchFirst text_clean ps

/-- `ONVIFVoiceAssistant._process_command`: normalise the (already lower-cased)
transcript, then scan the configured patterns in order. -/
def process_command (text : List Char) (patterns : List (List Char)) : Option (List Char) :=
  matchFirst (rstripPunct (pyStrip text)) patterns

/-- Modelled from the spec: the ordered-subsequence relation the spec uses to
describe pattern matching — every pattern word appears in the transcript's
word list at strictly increasing positions, in pattern order. -/
def specSubsequence : List (List Char) → List (List Char) → Bool
  | [], _ => true
  | _ :: _, [] => false
  | p :: ps, t :: ts =>
      if p == t then specSubsequence ps ts else specSubsequence (p :: ps) ts

example : ruleMatches ((r"please turn light on now").toList) ((r"light on").toList) = true := by
  decide
example : ruleMatches ((r"please turn light on now").toList) ((r"on light").toList) = false := by
  decide
example : ruleMatches ((r"on light on").toList) ((r"light on").toList) = false := by decide
example :
    specSubsequence (splitWs ((r"light on").toList)) (splitWs ((r"on light on").toList))
      = true := by decide

lemma sorted_eq_iff (l : List Nat) :
    l = List.insertionSort (· ≤ ·) l ↔ List.Sorted (· ≤ ·) l := by
  constructor
  · intro h
    rw [h]
    exact List.sorted_insertionSort _ _
  · intro h
    exact (List.Sorted.insertionSort_eq h).symm

/-- C3 (amended): `_process_command` is a pure function evaluating rules in
configured order with first match winning (`List.find?`), and a single rule
matches iff the cleaned transcript equals the normalized pattern, or every
pattern word occurs among the transcript words with the list of their
FIRST-occurrence indices (Python `list.index`), taken in pattern order,
non-decreasing — not the spec's ordered-subsequence relation; the claim's two
concrete examples behave as stated. -/
theorem c3_match_characterization :
    (∀ tc ps, matchFirst tc ps = ps.find? (ruleMatches tc))
    ∧ (∀ tc p, ruleMatches tc p = true ↔
         (tc = pyStrip (lowerStr p)
          ∨ ((∀ w ∈ splitWs (pyStrip (lowerStr p)), w ∈ splitWs tc)
             ∧ List.Sorted (· ≤ ·)
                 ((splitWs (pyStrip (lowerStr p))).map
                   (fun w => (splitWs tc).indexOf w)))))
    ∧ process_command ((r"please turn light on now").toList) [(r"light on").toList]
        = some ((r"light on").toList)
    ∧ process_command ((r"please turn light on now").toList) [(r"on light").toList] = none := by
  refine ⟨?_, ?_, by decide, by decide⟩
  · intro tc ps
    induction ps with
    | nil => rfl
    | cons p ps ih =>
        rw [matchFirst, ih]
        by_cases h : ruleMatches tc p
        · rw [if_pos h, List.find?_cons_of_pos _ h]
        · rw [if_neg h, List.find?_cons_of_neg _ (by simp [h])]
  · intro tc p
    rw [ruleMatches]
    simp only [Bool.or_eq_true, Bool.and_eq_true, beq_iff_eq, List.all_eq_true,
      List.contains_iff_exists_mem_beq]
    constructor
    · rintro (h | ⟨h1, h2⟩)
      · exact Or.inl h
      · refine Or.inr ⟨?_, (sorted_eq_iff _).mp h2⟩
        intro w hw
        obtain ⟨x, hx, hbeq⟩ := h1 w hw
        rw [hbeq]
        exact hx
    · rintro (h | ⟨h1, h2⟩)
      · exact Or.inl h
      · refine Or.inr ⟨?_, (sorted_eq_iff _).mpr h2⟩
        intro w hw
        exact ⟨w, h1 w hw, by simp⟩

/-- C3 counterexample: pattern `light on` IS an ordered subsequence of
transcript `on light on`, yet `_process_command` matches nothing, because the
first-occurrence index list `[1, 0]` is not sorted. -/
theorem c3_subsequence_counterexample :
    process_command ((r"on light on").toList) [(r"light on").toList] = none
    ∧ specSubsequence (splitWs ((r"light on").toList)) (splitWs ((r"on light on").toList))
        = true := by
  constructor
  · decide
  · decide

/-! ## Wyoming transcription client (`WyomingClient.send_audio`,
onvif-voice-assistant/rootfs/app/app.py) -/

/-- Timeout computed at line 93-94 of `send_audio`:
`audio_duration = len(audio_data) / (16000 * 2)` and
`timeout = max(30.0, min(60.0, audio_duration * 0.5))`. -/
def timeoutFor (nbytes : Nat) : ℚ :=
  max 30 (min 60 ((nbytes : ℚ) / (16000 * 2) * (1 / 2)))

/-- An event delivered by `client.read_event()`: a transcript message, some
other message type, or `None` (connection closed). -/
inductive WyEvent
  | transcript (text : List Char)
  | otherMsg
  | closedMsg
deriving DecidableEq

/-- The response-waiting loop of `send_audio` (lines 96-121), with time made
explicit: each iteration first checks `now - start > timeout`; then
`asyncio.wait_for(client.read_event(), timeout=5.0)` raises `TimeoutError`
(caught by the outer handler, which returns `None`) when the next event is more
than 5 seconds away; a transcript event returns its stripped text when
non-empty and `None` otherwise; a closed connection breaks out and returns
`None`; any other event is ignored and the loop continues.  The result is the
(return time, returned transcript) pair.  Events carry their arrival times in
non-decreasing order. -/
def recvLoop (timeout start : ℚ) : ℚ → List (ℚ × WyEvent) → ℚ × Option (List Char)
  | now, [] =>
      if timeout < now - start then (now, none) else (now + 5, none)
  | now, (tev, ev) :: rest =>
      if timeout < now - start then (now, none)
      else if now + 5 < tev then (now + 5, none)
      else
        match ev with
        | .closedMsg => (tev, none)
        | .transcript txt =>
            let text := pyStrip txt
            if text.isEmpty then (tev, none) else (tev, some text)
        | .otherMsg => recvLoop timeout start (max now tev) rest

/-- C4: sending a 2-second utterance (64000 bytes at 16 kHz, 16-bit mono)
yields the claimed 30-second timeout, yet when the server never responds the
call returns `None` 5 seconds after the send (the inner 5-second
`asyncio.wait_for` raises before the 30-second budget is consumed). -/
theorem c4_timeout_short_circuit :
    timeoutFor 64000 = 30
    ∧ recvLoop (timeoutFor 64000) 0 0 [] = (5, none)
    ∧ ((5 : ℚ) < 30) := by
  refine ⟨?_, ?_, by norm_num⟩
  · rw [timeoutFor]
    norm_num
  · norm_num [recvLoop, timeoutFor]

/-- C10: whatever the event timeline, `send_audio`'s waiting loop never returns
an empty transcript string: an empty-after-strip transcript is turned into
`None`. -/
theorem c10_no_empty_transcript (timeout start now : ℚ) (events : List (ℚ × WyEvent))
    (s : List Char)
    (h : (recvLoop timeout start now events).2 = some s) :
    s ≠ [] := by
  induction events generalizing now with
  | nil =>
      simp only [recvLoop] at h
      split at h <;> simp at h
  | cons e rest ih =>
      obtain ⟨tev, ev⟩ := e
      simp only [recvLoop] at h
      split at h
      · simp at h
      · split at h
        · simp at h
        · cases ev with
          | closedMsg => simp at h
          | transcript txt =>
              simp only at h
              split at h
              · simp at h
              · rename_i hne
                simp at h
                rw [← h]
                intro hnil
                rw [hnil] at hne
                simp at hne
          | otherMsg => exact ih _ h

theorem c10_no_empty_transcript_witness : (['h', 'i'] : List Char) ≠ [] :=
  c10_no_empty_transcript 30 0 0 [(1, WyEvent.transcript ['h', 'i'])] ['h', 'i']
    (by norm_num [recvLoop]
        decide)

/-! ## Socket-based Wyoming client (`WyomingClient`, app.py) -/

namespace SocketClient

/-- The `self.socket` attribute: `None`, a socket object left over from a
failed `connect()` (created but never connected), or a connected socket. -/
inductive Sock
  | disconnected
  | stale
  | live
deriving DecidableEq

/-- Outcome of the `sendall` calls of one `send_audio` invocation on a
connected socket: all writes succeed, or some write raises. -/
inductive SendOutcome
  | ok
  | failRaise
deriving DecidableEq

/-- Outcome of `_receive_message`: a well-formed transcript message, some
other well-formed message, or a receive-side failure (short read, connection
closed, malformed JSON) — the method catches its own exceptions and returns
`None` in the failure cases. -/
inductive RecvOutcome
  | transcript (text : List Char)
  | otherMsg
  | failure
deriving DecidableEq

/-- The body of `send_audio` after a connected socket is available: perform the
writes; a raised write error is caught by the outer handler, which calls
`disconnect()` and returns `None`; otherwise `_receive_message` is consulted
and only a transcript message produces a text result — in every receive branch
the socket is left connected. -/
def sendPhase (send : SendOutcome) (recv : RecvOutcome) : Sock × Option (List Char) :=
  match send with
  | .failRaise => (.disconnected, none)
  | .ok =>
      match recv with
      | .failure => (.live, none)
      | .otherMsg => (.live, none)
      | .transcript txt => (.live, some txt)

/-- One call of `WyomingClient.send_audio` (app.py lines 52-97): reuse the
stored socket when present, otherwise `connect()` first; a failed `connect`
returns `None` and leaves the freshly created, unconnected socket object in
`self.socket`; writing on such a socket raises, is caught, and `disconnect()`
resets the attribute to `None`.  Parameters describe the outcomes of the
network primitives during this call. -/
def send_audio (sock : Sock) (connectOk : Bool) (send : SendOutcome) (recv : RecvOutcome) :
    Sock × Option (List Char) :=
  match sock with
  | .disconnected => if connectOk then sendPhase send recv else (.stale, none)
  | .stale => (.disconnected, none)
  | .live => sendPhase send recv

end SocketClient

/-- C5 counterexample: a receive-side transport failure (unexpected close or
malformed message) returns `None` but does NOT close the connection — the next
call still reuses the same socket, contradicting the claim that any
transport-level error forces a fresh connection. -/
theorem c5_recv_error_keeps_connection :
    SocketClient.send_audio SocketClient.Sock.live true SocketClient.SendOutcome.ok
        SocketClient.RecvOutcome.failure
      = (SocketClient.Sock.live, none)
    ∧ SocketClient.Sock.live ≠ SocketClient.Sock.disconnected := by
  constructor
  · rfl
  · decide

/-- C5 amended: a healthy connection is reused (the connect step is never
consulted); a write failure closes the connection, returns `None`, and the next
call connects from scratch; a receive-side failure returns `None` but keeps the
connection for the next call. -/
theorem c5_connection_lifecycle :
    (∀ c c' send recv,
        SocketClient.send_audio SocketClient.Sock.live c send recv
          = SocketClient.send_audio SocketClient.Sock.live c' send recv)
    ∧ (∀ c recv,
        SocketClient.send_audio SocketClient.Sock.live c SocketClient.SendOutcome.failRaise recv
          = (SocketClient.Sock.disconnected, none))
    ∧ (∀ send recv,
        SocketClient.send_audio SocketClient.Sock.disconnected true send recv
          = SocketClient.sendPhase send recv)
    ∧ (∀ c,
        SocketClient.send_audio SocketClient.Sock.live c SocketClient.SendOutcome.ok
            SocketClient.RecvOutcome.failure
          = (SocketClient.Sock.live, none)) := by
  refine ⟨?_, ?_, ?_, ?_⟩
  · intro c c' send recv
    rfl
  · intro c recv
    rfl
  · intro send recv
    rfl
  · intro c
    rfl

/-! ## Action dispatcher (`ONVIFVoiceAssistant._execute_action`,
onvif-voice-assistant/rootfs/app/app.py) -/

/-- Python truthiness of `os.environ.get(name)`: `None` and the empty string
are both falsy. -/
def truthy : Option (List Char) → Bool
  | none => false
  | some s => !s.isEmpty

/-- The token lookup of `_execute_action` (lines 440-443):
`token = os.environ.get('SUPERVISOR_TOKEN')`, and `if not token:` fall back to
`os.environ.get('HASSIO_TOKEN')`; the result is `none` when `if not token:`
still holds afterwards (the action is then skipped). -/
def getAuthToken (sup ha : Option (List Char)) : Option (List Char) :=
  let token := sup
  let token := if truthy token then token else ha
  if truthy token then token else none

/-- `action.split(".", 1)` unpacked into `domain, service`: splits at the first
dot; `none` models the `ValueError` branch (no dot present). -/
def splitAction : List Char → Option (List Char × List Char)
  | [] => none
  | c :: cs =>
      if c = '.' then some ([], cs)
      else
        match splitAction cs with
        | some (d, s) => some (c :: d, s)
        | none => none

/-- Result of one `_execute_action` call: skipped for a missing credential,
skipped for a malformed action name, or an attempted HTTP call with the given
domain, service and bearer token.  Every branch returns normally — errors are
reported per call and the process keeps running. -/
inductive ActionResult
  | skippedNoToken
  | skippedBadAction
  | attempted (domain service token : List Char)
deriving DecidableEq

/-- `ONVIFVoiceAssistant._execute_action` reduced to its control flow: token
lookup first (skip on falsy), then action-name split (skip on `ValueError`),
then the HTTP request. -/
def execute_action (sup ha : Option (List Char)) (action : List Char) : ActionResult :=
  match getAuthToken sup ha with
  | none => ActionResult.skippedNoToken
  | some tok =>
      match splitAction action with
      | none => ActionResult.skippedBadAction
      | some (d, s) => ActionResult.attempted d s tok

/-- C7 counterexample: with `SUPERVISOR_TOKEN` present but empty and
`HASSIO_TOKEN` set, the code uses `HASSIO_TOKEN` — not the first *present*
variable as the claim states (Python `if not token:` treats an empty value as
missing). -/
theorem c7_token_counterexample :
    getAuthToken (some []) (some ['x']) = some ['x']
    ∧ (some ['x'] : Option (List Char)) ≠ some [] := by
  constructor
  · rfl
  · decide

/-- C7 amended: the credential is the first of the two environment variables
with a present AND non-empty value; when neither has one, that single action is
skipped (`skippedNoToken`) and the call returns normally — the process
continues. -/
theorem c7_token_lookup :
    (∀ sup ha t, getAuthToken sup ha = some t ↔
        ((sup = some t ∧ t ≠ [])
          ∨ (truthy sup = false ∧ ha = some t ∧ t ≠ [])))
    ∧ (∀ sup ha a,
        execute_action sup ha a = ActionResult.skippedNoToken ↔ getAuthToken sup ha = none) := by
  constructor
  · intro sup ha t
    cases sup with
    | none =>
        cases ha with
        | none => simp [getAuthToken, truthy]
        | some s =>
            by_cases hs : s.isEmpty
            · have : s = [] := by simpa [List.isEmpty_iff] using hs
              subst this
              simp [getAuthToken, truthy]
            · have hne : s ≠ [] := by simpa [List.isEmpty_iff] using hs
              simp [getAuthToken, truthy, hs]
              intro h
              exact fun hnil => hne (h ▸ hnil)
    | some s =>
        by_cases hs : s.isEmpty
        · have hsnil : s = [] := by simpa [List.isEmpty_iff] using hs
          subst hsnil
          cases ha with
          | none => simp [getAuthToken, truthy]
          | some u =>
              by_cases hu : u.isEmpty
              · have : u = [] := by simpa [List.isEmpty_iff] using hu
                subst this
                simp [getAuthToken, truthy]
              · have hne : u ≠ [] := by simpa [List.isEmpty_iff] using hu
                simp [getAuthToken, truthy, hu]
                intro h
                exact fun hnil => hne (h ▸ hnil)
        · have hne : s ≠ [] := by simpa [List.isEmpty_iff] using hs
          simp [getAuthToken, truthy, hs]
          intro h
          exact fun hnil => hne (h ▸ hnil)
  · intro sup ha a
    cases h : getAuthToken sup ha with
    | none => simp [execute_action, h]
    | some tok =>
        simp [execute_action, h]
        cases hsplit : splitAction a with
        | none => simp
        | some ds =>
            obtain ⟨d, s⟩ := ds
            simp

theorem c7_token_lookup_witness :
    (getAuthToken (some ['x']) none = some ['x'] ↔
        ((some ['x'] = some ['x'] ∧ (['x'] : List Char) ≠ [])
          ∨ (truthy (some ['x']) = false ∧ (none : Option (List Char)) = some ['x']
              ∧ (['x'] : List Char) ≠ []))) :=
  c7_token_lookup.1 (some ['x']) none ['x']
